import Mathlib

/-!
# FoldSync — verification of the tree-reconciliation core (`src/main.py`)

A shallow embedding of the reconciliation algorithm of FoldSync: the
recursive `copy_files` procedure (remove phase, size-then-hash file
comparison, recursive descent), its helpers `remove_unwanted`,
`remove_directory`, `copy_file`, `hash_file`, and the `validate`
precondition check.

Modeling conventions:
* A directory tree is an `Entry`: a file carries its byte content (as a
  `List Nat`) together with a readability flag (whether opening it for
  reading succeeds), a directory carries its list of named children.
* Python exceptions are modeled with `Except`: an uncaught exception
  aborts the computation, exactly as in the source, which contains no
  `try`/`except` around the copy/remove path.
* Python's recursion limit is modeled by an explicit `fuel` argument;
  exhausting it is `Err.recursionError`.
* The SHA-1 digest is modeled as an arbitrary function
  `sha1 : List Nat → List Nat` of the file content (the source streams
  the content in 64 KiB chunks through `hashlib.sha1`, hence the digest
  is a function of the byte content alone); every theorem below is
  quantified over this function, so it holds for the real SHA-1 in
  particular.
* `stat().st_size` of a directory is modeled as the conventional 4096.
-/

namespace FoldSync

/-- A directory-tree node: a regular file with its byte content and a
readability flag, or a directory with its named children. -/
inductive Entry where
  | file (content : List Nat) (readable : Bool)
  | dir (entries : List (String × Entry))

/-- The exceptions the Python code can raise on the reconciliation path. -/
inductive Err where
  | ioError
  | recursionError
  | notADirectory
  | isADirectory
deriving DecidableEq

/-- The mutating filesystem actions the run logs: one `copy` per
`copy_file` call, one `remove` per `Path.unlink` call. -/
inductive Action where
  | copy (name : String)
  | remove (name : String)
deriving DecidableEq

/-- `Path.iterdir()`: lists a directory; on a file it raises
`NotADirectoryError`. -/
def iterdir : Entry → Except Err (List (String × Entry))
  | .dir es => .ok es
  | .file _ _ => .error .notADirectory

/-- `Path.stat().st_size`: a file's byte length; for a directory the
filesystem reports a block size, modeled as the conventional 4096. -/
def stSize : Entry → Nat
  | .file c _ => c.length
  | .dir _ => 4096

/-- Child lookup by name inside one directory level
(`destination.joinpath(file.name)` membership / stat). -/
def findEntry (n : String) : List (String × Entry) → Option Entry
  | [] => none
  | (m, e) :: rest => if m == n then some e else findEntry n rest

/-- Overwrite the child of the given name, or create it: the effect of
writing `destination/name`. -/
def setEntry (n : String) (e : Entry) : List (String × Entry) → List (String × Entry)
  | [] => [(n, e)]
  | (m, e') :: rest => if m == n then (n, e) :: rest else (m, e') :: setEntry n e rest

/-- `hash_file` (main.py 171-182): opens the file and streams its whole
content through a SHA-1 digest, returned by `hexdigest()`. Opening an
unreadable file raises an `IOError`; opening a directory raises
`IsADirectoryError`. The digest function is the parameter `sha1`. -/
def hashFile (sha1 : List Nat → List Nat) : Entry → Except Err (List Nat)
  | .file c r => if r then .ok (sha1 c) else .error .ioError
  | .dir _ => .error .isADirectory

/-- `copy_file` (main.py 158-168): `shutil.copy2(source/name, destination)`.
Opening an unreadable source raises an `IOError`; writing onto an existing
directory of that name raises `IsADirectoryError`; otherwise the
destination entry of that name becomes a byte-for-byte copy of the source
file (copy2 also preserves its permission bits, hence the same readability
flag), and one copy action is logged. -/
def copyFileOp (n : String) (c : List Nat) (r : Bool) (ds : List (String × Entry)) :
    Except Err (List (String × Entry) × List Action) :=
  if r then
    match findEntry n ds with
    | some (.dir _) => .error .isADirectory
    | _ => .ok (setEntry n (.file c r) ds, [Action.copy n])
  else .error .ioError

/-- The per-file body of the `copy_files` loop (main.py 147-155): if no
destination entry of that name exists, copy; else if the byte lengths
(`st_size`) differ, copy; else compute both SHA-1 fingerprints and copy
exactly when they differ. -/
def syncFileStep (sha1 : List Nat → List Nat) (n : String) (c : List Nat) (r : Bool)
    (ds : List (String × Entry)) : Except Err (List (String × Entry) × List Action) :=
  match findEntry n ds with
  | none => copyFileOp n c r ds
  | some de =>
    if stSize (.file c r) != stSize de then copyFileOp n c r ds
    else
      match hashFile sha1 (.file c r) with
      | .error e => .error e
      | .ok h1 =>
        match hashFile sha1 de with
        | .error e => .error e
        | .ok h2 => if h1 == h2 then .ok (ds, []) else copyFileOp n c r ds

/-- `remove_directory` (main.py 209-214). The source recurses on the SAME
unchanged path whenever that path is a directory, so it never descends
into any child; the recursion only ends when the interpreter's recursion
limit is hit (`Err.recursionError` at fuel 0). On a non-directory it logs
and unlinks the file. -/
def removeDirectory (name : String) : Nat → Entry → Except Err (List Action)
  | 0, _ => .error .recursionError
  | fuel+1, .dir es => removeDirectory name fuel (.dir es)
  | _+1, .file _ _ => .ok [Action.remove name]

/-- The deletion loop of `remove_unwanted` (main.py 201-206): for each
leftover destination entry, directories go to `remove_directory`, files
are unlinked. -/
def removeLoop (fuel : Nat) : List (String × Entry) → Except Err (List Action)
  | [] => .ok []
  | (n, e) :: rest =>
    match e with
    | .dir es =>
      match removeDirectory n fuel (.dir es) with
      | .error err => .error err
      | .ok a =>
        match removeLoop fuel rest with
        | .error err => .error err
        | .ok b => .ok (a ++ b)
    | .file _ _ =>
      match removeLoop fuel rest with
      | .error err => .error err
      | .ok b => .ok (Action.remove n :: b)

/-- `remove_unwanted` (main.py 185-206): builds the set of destination
children, drops from it every name that also occurs among the source
children, and deletes what remains. Returns the surviving destination
children together with the logged deletions. Listing the destination
happens first, then the source, as in the Python code. -/
def removeUnwanted (fuel : Nat) (src dst : Entry) :
    Except Err (List (String × Entry) × List Action) :=
  match iterdir dst with
  | .error e => .error e
  | .ok des =>
    match iterdir src with
    | .error e => .error e
    | .ok ses =>
      match removeLoop fuel (des.filter (fun p => !ses.any (fun q => q.1 == p.1))) with
      | .error e => .error e
      | .ok acts => .ok (des.filter (fun p => ses.any (fun q => q.1 == p.1)), acts)

/-- The `for file in source.iterdir()` loop of `copy_files`
(main.py 144-155): subdirectories recurse through `crec` (the recursive
`copy_files` call at the next depth), files go through `syncFileStep`.
The evolving destination level is threaded through. -/
def copyLoop (sha1 : List Nat → List Nat)
    (crec : Entry → Option Entry → Except Err (Entry × List Action)) :
    List (String × Entry) → List (String × Entry) →
    Except Err (List (String × Entry) × List Action)
  | [], ds => .ok (ds, [])
  | (n, e) :: rest, ds =>
    match e with
    | .dir sub =>
      match crec (.dir sub) (findEntry n ds) with
      | .error err => .error err
      | .ok (e', a) =>
        match copyLoop sha1 crec rest (setEntry n e' ds) with
        | .error err => .error err
        | .ok (final, b) => .ok (final, a ++ b)
    | .file c r =>
      match syncFileStep sha1 n c r ds with
      | .error err => .error err
      | .ok (ds1, a) =>
        match copyLoop sha1 crec rest ds1 with
        | .error err => .error err
        | .ok (final, b) => .ok (final, a ++ b)

/-- `copy_files` (main.py 132-156): create the destination directory if
absent, run the remove phase, then walk the source children. `dst` is the
entry currently at the destination path (`none` when nothing exists
there). Python's recursion limit is the `fuel`. Returns the resulting
destination entry with the logged copy/remove actions, or the uncaught
exception that aborted the run. -/
def copyFiles (sha1 : List Nat → List Nat) : Nat → Entry → Option Entry → Except Err (Entry × List Action)
  | 0, _, _ => .error .recursionError
  | fuel+1, src, dst =>
    match removeUnwanted fuel src (dst.getD (.dir [])) with
    | .error e => .error e
    | .ok (keep, ra) =>
      match iterdir src with
      | .error e => .error e
      | .ok ses =>
        match copyLoop sha1 (copyFiles sha1 fuel) ses keep with
        | .error e => .error e
        | .ok (final, ca) => .ok (.dir final, ra ++ ca)

/-- Key (name) list of one directory level. -/
def keys (l : List (String × Entry)) : List String := l.map (fun p => p.1)

/-- No two children of one directory level share a name (true of every
real directory listing). -/
def nodupKeysB : List (String × Entry) → Bool
  | [] => true
  | p :: rest => (!rest.any (fun q => q.1 == p.1)) && nodupKeysB rest

mutual

/-- Well-formedness of a tree: every directory level has pairwise distinct
child names — the invariant every real filesystem tree satisfies. -/
def WFB : Entry → Bool
  | .file _ _ => true
  | .dir es => nodupKeysB es && WFList es

def WFList : List (String × Entry) → Bool
  | [] => true
  | (_, e) :: rest => WFB e && WFList rest

end

mutual

/-- The mirror relation of the specification: destination has the same
names and kinds as the source at every level, and for files the same byte
length and the same content fingerprint. -/
def MirrorB (sha1 : List Nat → List Nat) : Entry → Entry → Bool
  | .file c _, .file c' _ => (c.length == c'.length) && (sha1 c == sha1 c')
  | .dir es, .dir es' =>
    mirrorList sha1 es es' && es'.all (fun p => es.any (fun q => q.1 == p.1))
  | _, _ => false

def mirrorList (sha1 : List Nat → List Nat) :
    List (String × Entry) → List (String × Entry) → Bool
  | [], _ => true
  | (n, e) :: rest, ds =>
    (match findEntry n ds with
     | some e' => MirrorB sha1 e e'
     | none => false) && mirrorList sha1 rest ds

end

/-! ## The `validate` entry check (main.py 217-239)

`validate` only observes and mutates four filesystem facts: whether the
source exists, whether it is readable, whether the destination directory
exists, and whether the destination's parent exists. -/

/-- The filesystem facts `validate` can observe and mutate. -/
structure VState where
  sourceExists : Bool
  sourceReadable : Bool
  destExists : Bool
  destParentExists : Bool
deriving DecidableEq

/-- The fatal outcomes of `validate`: the two `SystemExit(1)` branches for
the source, and the `FileNotFoundError` that `Path.mkdir` (with its
default `parents=False`) raises when the destination's parent directory
does not exist. -/
inductive VErr where
  | srcNotAccessible
  | srcNotExists
  | destMkdirNoParent
deriving DecidableEq

/-- `os.access(source_dir, os.R_OK)`: true exactly when the path exists
and is readable (POSIX `access(2)` fails with `ENOENT` on a missing
path). -/
def osAccessR (s : VState) : Bool := s.sourceExists && s.sourceReadable

/-- `Path.mkdir(replica_dir)` with the default `parents=False`: creates
only the final path component; if the parent directory is missing it
raises `FileNotFoundError` and creates nothing. -/
def mkdirDest (s : VState) : VState × Option VErr :=
  if s.destParentExists then ({ s with destExists := true }, none)
  else (s, some VErr.destMkdirNoParent)

/-- `validate` (main.py 217-239): exit with `SystemExit(1)` when
`os.access` fails, then when the source does not exist; otherwise create
the destination directory if absent. Returns the filesystem state after
the call together with the fatal outcome, if any. -/
def validate (s : VState) : VState × Option VErr :=
  if !osAccessR s then (s, some VErr.srcNotAccessible)
  else if !s.sourceExists then (s, some VErr.srcNotExists)
  else if !s.destExists then mkdirDest s
  else (s, none)

/-! ## C7: `remove_directory` recurses on the same path and never unlinks -/

/-- C7: on any directory, `remove_directory` recurses on the same
unchanged path, never reaching a child; it terminates only by exhausting
the recursion limit (`Err.recursionError`), for every limit, so it never
unlinks any file inside the directory (no `Action.remove` is ever
produced) and never deletes the directory itself. On a non-directory the
function is total as well (it unlinks that single file). -/
theorem c7_remove_directory_spins (name : String) (fuel : Nat)
    (es : List (String × Entry)) :
    removeDirectory name fuel (.dir es) = .error .recursionError := by
  induction fuel with
  | zero => rfl
  | succ fuel ih => simpa [removeDirectory] using ih

/-! ## C8/C9/C10: the `validate` precondition check -/

/-- C8: when the source path does not exist or is not readable, `validate`
exits fatally (`SystemExit(1)`, a non-zero process exit) through the
`os.access` branch, and the filesystem state is returned exactly as it
was: in particular the destination directory has not been created. -/
theorem c8_validate_fatal_before_mutation (s : VState)
    (h : s.sourceExists = false ∨ s.sourceReadable = false) :
    validate s = (s, some VErr.srcNotAccessible) := by
  rcases h with h | h <;> simp [validate, osAccessR, h]

/-- Witness for C8 at a concrete state: source missing, destination
absent with an existing parent; `validate` exits without creating the
destination. -/
theorem c8_validate_fatal_witness :
    validate ⟨false, true, false, true⟩ = (⟨false, true, false, true⟩, some VErr.srcNotAccessible) :=
  c8_validate_fatal_before_mutation ⟨false, true, false, true⟩ (Or.inl rfl)

/-- C9: with a valid source, a missing destination directory is created
non-recursively: if the destination's parent exists, exactly the final
component is created (`destExists` becomes true and nothing else
changes); if the parent is missing, `Path.mkdir` (default
`parents=False`) fails with `FileNotFoundError` and no ancestor is
created (the state is unchanged). -/
theorem c9_mkdir_nonrecursive (s : VState)
    (hse : s.sourceExists = true) (hsr : s.sourceReadable = true)
    (hde : s.destExists = false) :
    (s.destParentExists = true →
      validate s = ({ s with destExists := true }, none)) ∧
    (s.destParentExists = false →
      validate s = (s, some VErr.destMkdirNoParent)) := by
  constructor <;> intro hp <;>
    simp [validate, osAccessR, mkdirDest, hse, hsr, hde, hp]

/-- Witness for C9 at a concrete state: the destination's parent is
missing, so `validate` fails with the path error and creates nothing. -/
theorem c9_mkdir_nonrecursive_witness :
    validate ⟨true, true, false, false⟩ = (⟨true, true, false, false⟩, some VErr.destMkdirNoParent) :=
  (c9_mkdir_nonrecursive ⟨true, true, false, false⟩ rfl rfl rfl).2 rfl

/-- C10: the `exists()` branch of `validate` is unreachable: no state
makes `validate` exit through `srcNotExists`, because `os.access` already
returns false for a missing source, so a missing source always exits
through the `srcNotAccessible` branch. -/
theorem c10_exists_branch_unreachable (s : VState) :
    (validate s).2 ≠ some VErr.srcNotExists ∧
    (s.sourceExists = false → validate s = (s, some VErr.srcNotAccessible)) := by
  constructor
  · obtain ⟨se, sr, de, dp⟩ := s
    revert se sr de dp
    decide
  · intro h; simp [validate, osAccessR, h]

/-- Witness for C10 at a concrete state with a missing source: the exit
goes through the `srcNotAccessible` branch. -/
theorem c10_exists_branch_witness :
    validate ⟨false, false, true, true⟩ = (⟨false, false, true, true⟩, some VErr.srcNotAccessible) :=
  (c10_exists_branch_unreachable ⟨false, false, true, true⟩).2 rfl

/-! ## C2: the remove phase on an unwanted directory -/

/-- C2 fails on the code: an unwanted destination directory is never
deleted. At the concrete input — empty source level, destination level
holding one empty directory `old` — the claim says `old` is removed
recursively; instead `remove_directory` recurses on the same path until
the recursion limit and the whole remove phase aborts with
`RecursionError`, deleting nothing. (Unwanted plain files, by contrast,
are unlinked before any copy, as the `removeLoop`/`copyFiles` order
shows.) -/
theorem c2_remove_directory_bug :
    removeUnwanted 7 (.dir []) (.dir [("old", .dir [])]) = .error .recursionError := rfl

/-! ## C3: kind-mismatched entries -/

/-- C3 fails on the code: a destination file whose name collides with a
source directory is NOT removed and the directory is NOT created. The
remove phase keeps the file (the name occurs among the source names), and
the recursive `copy_files` call then lists the destination path — a file —
so the run aborts with `NotADirectoryError`, leaving the stale file in
place. -/
theorem c3_kind_mismatch_bug :
    copyFiles (fun c => c) 7 (.dir [("x", .dir [("c", .file [1] true)])])
      (some (.dir [("x", .file [0] true)])) = .error .notADirectory := rfl

/-! ## C6: per-entry failures are not skipped -/

/-- Counterexample to C6: source holds `a` (unreadable, same size as the
destination copy, so its hash is computed) followed by the sibling `b`
(new, would be copied). The claim says the `IOError` from hashing `a` is
logged, `a` is skipped and `b` is still processed; instead the exception
propagates uncaught and the whole run aborts — the result is the error,
not a successful pass that copied `b`. -/
theorem c6_counterexample :
    copyFiles (fun c => c) 7
      (.dir [("a", .file [1, 2] false), ("b", .file [3] true)])
      (some (.dir [("a", .file [9, 9] true)])) = .error .ioError := rfl

/-- C6 amended: an `IOError` raised while hashing (or copying) a single
entry propagates out of `copy_files` — there is no `try`/`except` in the
copy/remove path — so the run aborts and the remaining sibling entries
are never processed, whatever they are: for every digest function, fuel,
and sibling list `rest`, the run on a level whose first file is
unreadable returns the `IOError` itself. -/
theorem c6_error_aborts_run (sha1 : List Nat → List Nat) (fuel : Nat)
    (rest : List (String × Entry)) :
    copyFiles sha1 (fuel + 1) (.dir (("a", .file [0] false) :: rest))
      (some (.dir [("a", .file [0] true)])) = .error .ioError := by
  simp [copyFiles, removeUnwanted, iterdir, removeLoop, copyLoop, syncFileStep,
    findEntry, hashFile, stSize]

/-! ## C4: the size-then-hash comparison rule -/

/-- C4: for a readable source file with a same-named readable destination
file: if the byte lengths differ the file is copied with no hash computed
(the outcome does not depend on the digest function at all); if the
lengths match, both fingerprints are computed and the file is copied
exactly when they differ — equal size and equal fingerprint is never
recopied. -/
theorem c4_size_then_hash (h1 h2 : List Nat → List Nat) (n : String)
    (c c' : List Nat) (ds : List (String × Entry))
    (hfind : findEntry n ds = some (.file c' true)) :
    (c.length ≠ c'.length →
      syncFileStep h1 n c true ds
          = .ok (setEntry n (.file c true) ds, [Action.copy n])
        ∧ syncFileStep h1 n c true ds = syncFileStep h2 n c true ds) ∧
    (c.length = c'.length →
      (h1 c ≠ h1 c' → syncFileStep h1 n c true ds
          = .ok (setEntry n (.file c true) ds, [Action.copy n]))
      ∧ (h1 c = h1 c' → syncFileStep h1 n c true ds = .ok (ds, []))) := by
  have hcopy : ∀ h : List Nat → List Nat, copyFileOp n c true ds
      = .ok (setEntry n (.file c true) ds, [Action.copy n]) := by
    intro h; simp [copyFileOp, hfind]
  constructor
  · intro hne
    constructor
    · simp [syncFileStep, hfind, stSize, bne_iff_ne, hne, hcopy h1]
    · simp [syncFileStep, hfind, stSize, bne_iff_ne, hne, hcopy h1]
  · intro heq
    constructor
    · intro hh
      simp [syncFileStep, hfind, stSize, heq, hashFile, hh, hcopy h1]
    · intro hh
      simp [syncFileStep, hfind, stSize, heq, hashFile, hh]

/-- Witness for C4 at a concrete input: lengths 1 and 2 differ, so the
file is copied (and no hash is computed). -/
theorem c4_size_then_hash_witness :
    syncFileStep (fun l => [l.length]) "f" [5] true [("f", .file [6, 7] true)]
      = .ok (setEntry "f" (.file [5] true) [("f", .file [6, 7] true)], [Action.copy "f"]) :=
  ((c4_size_then_hash (fun l => [l.length]) (fun _ => []) "f" [5] [6, 7]
      [("f", .file [6, 7] true)] rfl).1 (by decide)).1

/-! ## Helper lemmas about one directory level -/

theorem findEntry_setEntry_self (n : String) (e : Entry) (l : List (String × Entry)) :
    findEntry n (setEntry n e l) = some e := by
  induction l with
  | nil => simp [setEntry, findEntry]
  | cons p rest ih =>
    obtain ⟨m, e'⟩ := p
    cases hm : (m == n) with
    | true => simp [setEntry, hm, findEntry]
    | false => simp [setEntry, hm, findEntry, ih]

theorem findEntry_setEntry_ne (m n : String) (hmn : m ≠ n) (e : Entry)
    (l : List (String × Entry)) :
    findEntry m (setEntry n e l) = findEntry m l := by
  induction l with
  | nil => simp [setEntry, findEntry, beq_iff_eq, Ne.symm hmn]
  | cons p rest ih =>
    obtain ⟨k, e'⟩ := p
    cases hk : (k == n) with
    | true =>
      have hk' : k = n := by simpa using hk
      simp [setEntry, hk, findEntry, beq_iff_eq, hk', Ne.symm hmn]
    | false =>
      cases hk2 : (k == m) with
      | true => simp [setEntry, hk, findEntry, hk2]
      | false => simp [setEntry, hk, findEntry, hk2, ih]

theorem setEntry_self_of_find (n : String) (e : Entry) (l : List (String × Entry))
    (h : findEntry n l = some e) : setEntry n e l = l := by
  induction l with
  | nil => simp [findEntry] at h
  | cons p rest ih =>
    obtain ⟨m, e'⟩ := p
    cases hm : (m == n) with
    | true =>
      have hm' : m = n := by simpa using hm
      simp [findEntry, hm] at h
      simp [setEntry, hm, hm', h]
    | false =>
      simp [findEntry, hm] at h
      simp [setEntry, hm, ih h]

theorem keys_cons (k : String) (e : Entry) (l : List (String × Entry)) :
    keys ((k, e) :: l) = k :: keys l := rfl

theorem keys_setEntry_sub (n : String) (e : Entry) (l : List (String × Entry))
    (m : String) (h : m ∈ keys (setEntry n e l)) : m = n ∨ m ∈ keys l := by
  induction l with
  | nil =>
    simp [setEntry, keys] at h
    exact Or.inl h
  | cons p rest ih =>
    obtain ⟨k, e'⟩ := p
    cases hk : (k == n) with
    | true =>
      rw [setEntry, if_pos hk, keys_cons] at h
      rcases List.mem_cons.mp h with h | h
      · exact Or.inl h
      · exact Or.inr (by rw [keys_cons]; exact List.mem_cons.mpr (Or.inr h))
    | false =>
      rw [setEntry, if_neg (by simp [hk]), keys_cons] at h
      rcases List.mem_cons.mp h with h | h
      · exact Or.inr (by rw [keys_cons]; exact List.mem_cons.mpr (Or.inl h))
      · rcases ih h with h' | h'
        · exact Or.inl h'
        · exact Or.inr (by rw [keys_cons]; exact List.mem_cons.mpr (Or.inr h'))

theorem any_key_iff (l : List (String × Entry)) (m : String) :
    (l.any (fun q => q.1 == m) = true) ↔ m ∈ keys l := by
  induction l with
  | nil => simp [keys]
  | cons p rest ih =>
    obtain ⟨k, e⟩ := p
    rw [keys_cons]
    simp only [List.any_cons, Bool.or_eq_true, List.mem_cons, ih, beq_iff_eq]
    constructor
    · rintro (h | h)
      · exact Or.inl h.symm
      · exact Or.inr h
    · rintro (h | h)
      · exact Or.inl h.symm
      · exact Or.inr h

/-! ## Inversion lemmas for the remove phase -/

theorem removeUnwanted_file_src (fuel : Nat) (c : List Nat) (r : Bool) (d : Entry)
    (x : List (String × Entry) × List Action) :
    removeUnwanted fuel (.file c r) d ≠ .ok x := by
  cases d <;> simp [removeUnwanted, iterdir]

theorem removeUnwanted_ok_inversion (fuel : Nat) (ses : List (String × Entry))
    (d : Entry) (keep : List (String × Entry)) (ra : List Action)
    (h : removeUnwanted fuel (.dir ses) d = .ok (keep, ra)) :
    ∃ des, d = .dir des ∧
      keep = des.filter (fun p => ses.any (fun q => q.1 == p.1)) := by
  cases d with
  | file c r => simp [removeUnwanted, iterdir] at h
  | dir des =>
    refine ⟨des, rfl, ?_⟩
    simp only [removeUnwanted, iterdir] at h
    cases hrl : removeLoop fuel (des.filter fun p => !ses.any fun q => q.1 == p.1) with
    | error e => rw [hrl] at h; simp at h
    | ok acts => rw [hrl] at h; simp at h; exact h.1.symm

theorem removeUnwanted_all_match (fuel : Nat) (ses des : List (String × Entry))
    (hall : ∀ p ∈ des, ses.any (fun q => q.1 == p.1) = true) :
    removeUnwanted fuel (.dir ses) (.dir des) = .ok (des, []) := by
  have h1 : ∀ (l : List (String × Entry)),
      (∀ p ∈ l, ses.any (fun q => q.1 == p.1) = true) →
      l.filter (fun p => !ses.any (fun q => q.1 == p.1)) = [] ∧
      l.filter (fun p => ses.any (fun q => q.1 == p.1)) = l := by
    intro l
    induction l with
    | nil => simp
    | cons p rest ih =>
      intro hl
      have hp := hl p (List.mem_cons_self p rest)
      have hr := ih (fun x hx => hl x (List.mem_cons_of_mem p hx))
      simp [List.filter_cons, hp, hr.1, hr.2]
  simp [removeUnwanted, iterdir, (h1 des hall).1, (h1 des hall).2, removeLoop]

/-! ## Inversion lemmas for the copy phase -/

theorem copyFileOp_ok (n : String) (c : List Nat) (r : Bool)
    (ds ds1 : List (String × Entry)) (a : List Action)
    (h : copyFileOp n c r ds = .ok (ds1, a)) :
    r = true ∧ ds1 = setEntry n (.file c r) ds ∧ a = [Action.copy n] := by
  cases r with
  | false => simp [copyFileOp] at h
  | true =>
    simp only [copyFileOp, if_pos] at h
    cases hf : findEntry n ds with
    | none => rw [hf] at h; simp at h; exact ⟨rfl, h.1.symm, h.2.symm⟩
    | some de =>
      cases de with
      | dir es => rw [hf] at h; simp at h
      | file c2 r2 => rw [hf] at h; simp at h; exact ⟨rfl, h.1.symm, h.2.symm⟩

/-- The relation between a source file (content `c`, readability `r`) and
the destination entry of the same name established by a successful
`syncFileStep`: both sides readable, equal byte length, equal
fingerprint. -/
def FileSynced (sha1 : List Nat → List Nat) (c : List Nat) (r : Bool) : Entry → Prop
  | .file c' r' => r = true ∧ r' = true ∧ c.length = c'.length ∧ sha1 c = sha1 c'
  | .dir _ => False

theorem syncFileStep_synced_noop (sha1 : List Nat → List Nat) (n : String)
    (c : List Nat) (r : Bool) (ef : Entry) (ds : List (String × Entry))
    (hs : FileSynced sha1 c r ef) (hf : findEntry n ds = some ef) :
    syncFileStep sha1 n c r ds = .ok (ds, []) := by
  cases ef with
  | dir es => exact absurd hs (by simp [FileSynced])
  | file c' r' =>
    have hs' : r = true ∧ r' = true ∧ c.length = c'.length ∧ sha1 c = sha1 c' := hs
    obtain ⟨hr, hr', hlen, hsha⟩ := hs'
    subst hr; subst hr'
    simp only [syncFileStep]
    rw [hf]
    simp [stSize, hlen, hashFile, hsha]

theorem syncFileStep_ok_cases (sha1 : List Nat → List Nat) (n : String)
    (c : List Nat) (r : Bool) (ds ds1 : List (String × Entry)) (a : List Action)
    (h : syncFileStep sha1 n c r ds = .ok (ds1, a)) :
    (∃ ef, findEntry n ds = some ef ∧ FileSynced sha1 c r ef ∧ ds1 = ds ∧ a = [])
    ∨ (r = true ∧ ds1 = setEntry n (.file c r) ds ∧ a = [Action.copy n]) := by
  simp only [syncFileStep] at h
  cases hf : findEntry n ds with
  | none =>
    rw [hf] at h
    exact Or.inr (copyFileOp_ok n c r ds ds1 a h)
  | some de =>
    rw [hf] at h
    simp only [] at h
    by_cases hsz : (stSize (.file c r) != stSize de) = true
    · rw [if_pos hsz] at h
      exact Or.inr (copyFileOp_ok n c r ds ds1 a h)
    · rw [if_neg hsz] at h
      cases r with
      | false => simp [hashFile] at h
      | true =>
        cases de with
        | dir es => simp [hashFile] at h
        | file c2 r2 =>
          cases r2 with
          | false => simp [hashFile] at h
          | true =>
            simp only [hashFile, if_pos] at h
            by_cases hh : (sha1 c == sha1 c2) = true
            · rw [if_pos hh] at h
              simp at h
              refine Or.inl ⟨.file c2 true, rfl, ?_, h.1.symm, h.2⟩
              have hlen : c.length = c2.length := by
                have hne : ¬ (c.length ≠ c2.length) := by
                  simpa [stSize, bne_iff_ne] using hsz
                exact not_ne_iff.mp hne
              exact ⟨rfl, rfl, hlen, eq_of_beq hh⟩
            · rw [if_neg hh] at h
              exact Or.inr (copyFileOp_ok n c true ds ds1 a h)

theorem FileSynced_mirror (sha1 : List Nat → List Nat) (c : List Nat) (r : Bool)
    (ef : Entry) (hs : FileSynced sha1 c r ef) :
    MirrorB sha1 (.file c r) ef = true := by
  cases ef with
  | dir es => exact absurd hs (by simp [FileSynced])
  | file c' r' =>
    have hs' : r = true ∧ r' = true ∧ c.length = c'.length ∧ sha1 c = sha1 c' := hs
    simp [MirrorB, hs'.2.2.1, hs'.2.2.2]

/-! ## Generic facts about the copy loop -/

theorem copyLoop_preserves_findEntry (sha1 : List Nat → List Nat)
    (crec : Entry → Option Entry → Except Err (Entry × List Action)) (m : String) :
    ∀ (es ds final : List (String × Entry)) (a : List Action),
      es.any (fun q => q.1 == m) = false →
      copyLoop sha1 crec es ds = .ok (final, a) →
      findEntry m final = findEntry m ds := by
  intro es
  induction es with
  | nil =>
    intro ds final a _ h
    simp [copyLoop] at h
    rw [h.1]
  | cons p rest ih =>
    obtain ⟨n, e⟩ := p
    intro ds final a hany h
    have hany' : (n == m) = false ∧ rest.any (fun q => q.1 == m) = false := by
      simpa [List.any_cons] using hany
    have hne : m ≠ n := fun hmn => by
      have h1 := hany'.1
      rw [hmn] at h1
      simp at h1
    cases e with
    | dir sub =>
      simp only [copyLoop] at h
      cases hc : crec (.dir sub) (findEntry n ds) with
      | error err => rw [hc] at h; simp at h
      | ok pa =>
        obtain ⟨e', a1⟩ := pa
        rw [hc] at h
        simp only [] at h
        cases hcl : copyLoop sha1 crec rest (setEntry n e' ds) with
        | error err => rw [hcl] at h; simp at h
        | ok pb =>
          obtain ⟨final', b⟩ := pb
          rw [hcl] at h
          simp at h
          rw [← h.1, ih (setEntry n e' ds) final' b hany'.2 hcl,
            findEntry_setEntry_ne m n hne e' ds]
    | file c r =>
      simp only [copyLoop] at h
      cases hs : syncFileStep sha1 n c r ds with
      | error err => rw [hs] at h; simp at h
      | ok pa =>
        obtain ⟨ds1, a1⟩ := pa
        rw [hs] at h
        simp only [] at h
        cases hcl : copyLoop sha1 crec rest ds1 with
        | error err => rw [hcl] at h; simp at h
        | ok pb =>
          obtain ⟨final', b⟩ := pb
          rw [hcl] at h
          simp at h
          have hstep : findEntry m ds1 = findEntry m ds := by
            rcases syncFileStep_ok_cases sha1 n c r ds ds1 a1 hs with
              ⟨ef, _, _, hds, _⟩ | ⟨_, hds, _⟩
            · rw [hds]
            · rw [hds, findEntry_setEntry_ne m n hne _ ds]
          rw [← h.1, ih ds1 final' b hany'.2 hcl, hstep]

theorem copyLoop_keys (sha1 : List Nat → List Nat)
    (crec : Entry → Option Entry → Except Err (Entry × List Action)) :
    ∀ (es ds final : List (String × Entry)) (a : List Action),
      copyLoop sha1 crec es ds = .ok (final, a) →
      ∀ m, m ∈ keys final → m ∈ keys es ∨ m ∈ keys ds := by
  intro es
  induction es with
  | nil =>
    intro ds final a h m hm
    simp [copyLoop] at h
    rw [← h.1] at hm
    exact Or.inr hm
  | cons p rest ih =>
    obtain ⟨n, e⟩ := p
    intro ds final a h m hm
    rw [keys_cons]
    cases e with
    | dir sub =>
      simp only [copyLoop] at h
      cases hc : crec (.dir sub) (findEntry n ds) with
      | error err => rw [hc] at h; simp at h
      | ok pa =>
        obtain ⟨e', a1⟩ := pa
        rw [hc] at h
        simp only [] at h
        cases hcl : copyLoop sha1 crec rest (setEntry n e' ds) with
        | error err => rw [hcl] at h; simp at h
        | ok pb =>
          obtain ⟨final', b⟩ := pb
          rw [hcl] at h
          simp at h
          rw [← h.1] at hm
          rcases ih (setEntry n e' ds) final' b hcl m hm with h' | h'
          · exact Or.inl (List.mem_cons.mpr (Or.inr h'))
          · rcases keys_setEntry_sub n e' ds m h' with h'' | h''
            · exact Or.inl (List.mem_cons.mpr (Or.inl h''))
            · exact Or.inr h''
    | file c r =>
      simp only [copyLoop] at h
      cases hs : syncFileStep sha1 n c r ds with
      | error err => rw [hs] at h; simp at h
      | ok pa =>
        obtain ⟨ds1, a1⟩ := pa
        rw [hs] at h
        simp only [] at h
        cases hcl : copyLoop sha1 crec rest ds1 with
        | error err => rw [hcl] at h; simp at h
        | ok pb =>
          obtain ⟨final', b⟩ := pb
          rw [hcl] at h
          simp at h
          rw [← h.1] at hm
          rcases ih ds1 final' b hcl m hm with h' | h'
          · exact Or.inl (List.mem_cons.mpr (Or.inr h'))
          · rcases syncFileStep_ok_cases sha1 n c r ds ds1 a1 hs with
              ⟨ef, _, _, hds, _⟩ | ⟨_, hds, _⟩
            · rw [hds] at h'
              exact Or.inr h'
            · rw [hds] at h'
              rcases keys_setEntry_sub n _ ds m h' with h'' | h''
              · exact Or.inl (List.mem_cons.mpr (Or.inl h''))
              · exact Or.inr h''

/-! ## The main invariant: a successful pass mirrors the source and is a
fixed point -/

theorem copyLoop_run (sha1 : List Nat → List Nat) (fuel : Nat)
    (ih : ∀ (src : Entry) (dst : Option Entry) (d' : Entry) (a : List Action),
      WFB src = true → copyFiles sha1 fuel src dst = .ok (d', a) →
      MirrorB sha1 src d' = true ∧ copyFiles sha1 fuel src (some d') = .ok (d', [])) :
    ∀ (es ds final : List (String × Entry)) (acts : List Action),
      nodupKeysB es = true → WFList es = true →
      copyLoop sha1 (copyFiles sha1 fuel) es ds = .ok (final, acts) →
      mirrorList sha1 es final = true ∧
      copyLoop sha1 (copyFiles sha1 fuel) es final = .ok (final, []) := by
  intro es
  induction es with
  | nil =>
    intro ds final acts _ _ _
    exact ⟨by simp [mirrorList], by simp [copyLoop]⟩
  | cons p rest ihl =>
    obtain ⟨n, e⟩ := p
    intro ds final acts hnd hwf h
    have hnd' : rest.any (fun q => q.1 == n) = false ∧ nodupKeysB rest = true := by
      simpa [nodupKeysB, Bool.and_eq_true, Bool.not_eq_true'] using hnd
    obtain ⟨hnd1, hnd2⟩ := hnd'
    have hwf' : WFB e = true ∧ WFList rest = true := by
      simpa [WFList, Bool.and_eq_true] using hwf
    obtain ⟨hwfe, hwfr⟩ := hwf'
    cases e with
    | dir sub =>
      simp only [copyLoop] at h
      cases hc : copyFiles sha1 fuel (.dir sub) (findEntry n ds) with
      | error err => rw [hc] at h; simp at h
      | ok pa =>
        obtain ⟨e', a1⟩ := pa
        rw [hc] at h
        simp only [] at h
        cases hcl : copyLoop sha1 (copyFiles sha1 fuel) rest (setEntry n e' ds) with
        | error err => rw [hcl] at h; simp at h
        | ok pb =>
          obtain ⟨final', b⟩ := pb
          rw [hcl] at h
          simp at h
          obtain ⟨hfin, -⟩ := h
          subst hfin
          have hih := ih (.dir sub) (findEntry n ds) e' a1 hwfe hc
          have hrest := ihl (setEntry n e' ds) final' b hnd2 hwfr hcl
          have hfind : findEntry n final' = some e' := by
            rw [copyLoop_preserves_findEntry sha1 (copyFiles sha1 fuel) n rest
              (setEntry n e' ds) final' b hnd1 hcl]
            exact findEntry_setEntry_self n e' ds
          constructor
          · simp only [mirrorList]
            rw [hfind]
            simp [hih.1, hrest.1]
          · simp only [copyLoop]
            rw [hfind, hih.2]
            simp only []
            rw [setEntry_self_of_find n e' final' hfind, hrest.2]
            simp
    | file c r =>
      simp only [copyLoop] at h
      cases hs : syncFileStep sha1 n c r ds with
      | error err => rw [hs] at h; simp at h
      | ok pa =>
        obtain ⟨ds1, a1⟩ := pa
        rw [hs] at h
        simp only [] at h
        cases hcl : copyLoop sha1 (copyFiles sha1 fuel) rest ds1 with
        | error err => rw [hcl] at h; simp at h
        | ok pb =>
          obtain ⟨final', b⟩ := pb
          rw [hcl] at h
          simp at h
          obtain ⟨hfin, -⟩ := h
          subst hfin
          have hrest := ihl ds1 final' b hnd2 hwfr hcl
          have hef : ∃ ef, findEntry n ds1 = some ef ∧ FileSynced sha1 c r ef := by
            rcases syncFileStep_ok_cases sha1 n c r ds ds1 a1 hs with
              ⟨ef, hf, hsync, hds, -⟩ | ⟨hr, hds, -⟩
            · exact ⟨ef, by rw [hds]; exact hf, hsync⟩
            · subst hr
              exact ⟨.file c true,
                by rw [hds]; exact findEntry_setEntry_self n _ ds,
                ⟨rfl, rfl, rfl, rfl⟩⟩
          obtain ⟨ef, hef1, hef2⟩ := hef
          have hfind : findEntry n final' = some ef := by
            rw [copyLoop_preserves_findEntry sha1 (copyFiles sha1 fuel) n rest
              ds1 final' b hnd1 hcl]
            exact hef1
          constructor
          · simp only [mirrorList]
            rw [hfind]
            simp [FileSynced_mirror sha1 c r ef hef2, hrest.1]
          · simp only [copyLoop]
            rw [syncFileStep_synced_noop sha1 n c r ef final' hef2 hfind]
            simp only []
            rw [hrest.2]
            simp

theorem copyFiles_run (sha1 : List Nat → List Nat) :
    ∀ (fuel : Nat) (src : Entry) (dst : Option Entry) (d' : Entry) (a : List Action),
      WFB src = true → copyFiles sha1 fuel src dst = .ok (d', a) →
      MirrorB sha1 src d' = true ∧ copyFiles sha1 fuel src (some d') = .ok (d', []) := by
  intro fuel
  induction fuel with
  | zero => intro src dst d' a _ h; simp [copyFiles] at h
  | succ fuel ih =>
    intro src dst d' a hwf h
    cases src with
    | file c r =>
      simp only [copyFiles] at h
      cases hru : removeUnwanted fuel (.file c r) (dst.getD (.dir [])) with
      | error e => rw [hru] at h; simp at h
      | ok x => exact absurd hru (removeUnwanted_file_src fuel c r _ x)
    | dir es =>
      simp only [copyFiles] at h
      cases hru : removeUnwanted fuel (.dir es) (dst.getD (.dir [])) with
      | error e => rw [hru] at h; simp at h
      | ok pk =>
        obtain ⟨keep, ra⟩ := pk
        rw [hru] at h
        simp only [] at h
        simp only [iterdir] at h
        cases hcl : copyLoop sha1 (copyFiles sha1 fuel) es keep with
        | error e => rw [hcl] at h; simp at h
        | ok pf =>
          obtain ⟨final, ca⟩ := pf
          rw [hcl] at h
          simp at h
          obtain ⟨hd', -⟩ := h
          subst hd'
          have hwf' : nodupKeysB es = true ∧ WFList es = true := by
            simpa [WFB, Bool.and_eq_true] using hwf
          have hloop := copyLoop_run sha1 fuel ih es keep final ca hwf'.1 hwf'.2 hcl
          have hkeys : ∀ p ∈ final, es.any (fun q => q.1 == p.1) = true := by
            intro p hp
            have hm : p.1 ∈ keys final := List.mem_map_of_mem (fun q => q.1) hp
            rcases copyLoop_keys sha1 (copyFiles sha1 fuel) es keep final ca hcl p.1 hm with
              h' | h'
            · exact (any_key_iff es p.1).mpr h'
            · obtain ⟨des, hdes, hkeepf⟩ := removeUnwanted_ok_inversion fuel es _ keep ra hru
              rw [hkeepf] at h'
              have hq : ∃ q, q ∈ des.filter (fun x => es.any (fun q2 => q2.1 == x.1)) ∧
                  q.1 = p.1 := by
                simpa [keys, List.mem_map] using h'
              obtain ⟨q, hqmem, hq1⟩ := hq
              have hqp := List.of_mem_filter hqmem
              rw [hq1] at hqp
              exact hqp
          constructor
          · simp only [MirrorB, Bool.and_eq_true]
            exact ⟨hloop.1, List.all_eq_true.mpr hkeys⟩
          · simp only [copyFiles, Option.getD_some]
            rw [removeUnwanted_all_match fuel es final hkeys]
            simp only []
            simp only [iterdir]
            rw [hloop.2]
            simp

/-! ## C1 and C5 -/

/-- C1: whenever one reconciliation pass (`copy_files`, run after
`validate`, which at most creates the empty destination root — `dst` here
is arbitrary: absent, empty, partially matching or disjoint) completes
successfully on a well-formed source tree, the resulting destination tree
mirrors the source at every level: same names, same kinds, and for files
the same byte length and the same content fingerprint. -/
theorem c1_converged_after_success (sha1 : List Nat → List Nat) (fuel : Nat)
    (src : Entry) (dst : Option Entry) (d' : Entry) (a : List Action)
    (hwf : WFB src = true)
    (hrun : copyFiles sha1 fuel src dst = .ok (d', a)) :
    MirrorB sha1 src d' = true :=
  (copyFiles_run sha1 fuel src dst d' a hwf hrun).1

/-- Witness for C1: a concrete successful pass from an empty destination;
the result mirrors the source. -/
theorem c1_converged_witness :
    MirrorB (fun c => c) (.dir [("a", .file [1, 2] true)])
      (.dir [("a", .file [1, 2] true)]) = true :=
  c1_converged_after_success (fun c => c) 2 (.dir [("a", .file [1, 2] true)]) none
    (.dir [("a", .file [1, 2] true)]) [Action.copy "a"]
    (by simp [WFB, WFList, nodupKeysB]) (by rfl)

/-- C5: a second reconciliation pass over the output of a successful
first pass (same unchanged source, same recursion budget) succeeds,
performs zero copy and zero delete actions (the action log is empty), and
leaves the destination tree unchanged — the first run's output is a fixed
point. -/
theorem c5_second_run_no_actions (sha1 : List Nat → List Nat) (fuel : Nat)
    (src : Entry) (dst : Option Entry) (d' : Entry) (a : List Action)
    (hwf : WFB src = true)
    (hrun : copyFiles sha1 fuel src dst = .ok (d', a)) :
    copyFiles sha1 fuel src (some d') = .ok (d', []) :=
  (copyFiles_run sha1 fuel src dst d' a hwf hrun).2

/-- Witness for C5: after the concrete first run of the C1 witness, the
second run returns the same tree with an empty action log. -/
theorem c5_second_run_witness :
    copyFiles (fun c => c) 2 (.dir [("a", .file [1, 2] true)])
      (some (.dir [("a", .file [1, 2] true)]))
      = .ok (.dir [("a", .file [1, 2] true)], []) :=
  c5_second_run_no_actions (fun c => c) 2 (.dir [("a", .file [1, 2] true)]) none
    (.dir [("a", .file [1, 2] true)]) [Action.copy "a"]
    (by simp [WFB, WFList, nodupKeysB]) (by rfl)

end FoldSync
